import Mathlib

/-!
Verification of the media upload / ordering / deletion subsystem of the
flutter-flask-marketplace backend (src/backend/app/routes.py and
src/backend/app/models.py), via a shallow embedding of the relevant Python
functions and endpoint handlers into Lean.
-/

namespace Marketplace

/-! ## Content classification helpers (src/backend/app/routes.py, lines 14-41) -/

/-- `ALLOWED_EXTENSIONS = {'png', 'jpg', 'jpeg', 'gif', 'mp4', 'mov', 'avi'}`
(routes.py line 15). -/
def ALLOWED_EXTENSIONS : List String :=
  [ "png", "jpg", "jpeg", "gif", "mp4", "mov", "avi" ]

/-- Python `str.lower()`, character-wise ASCII lowercasing.  This agrees with
CPython on every comparison this code performs: the comparison targets
(extension allow-list, MIME table keys) are ASCII, and no Unicode character
lowercases onto them. -/
def pyLower (s : String) : String :=
  ⟨ s.data.map Char.toLower ⟩

/-- `beginsWith pre s`: `s` starts with `pre` (on character lists). -/
def beginsWith : List Char → List Char → Bool
  | [], _ => true
  | _ :: _, [] => false
  | a :: as, b :: bs => a == b && beginsWith as bs

/-- Python `str.startswith`. -/
def strStartsWith (s pre : String) : Bool :=
  beginsWith pre.data s.data

/-- Python `filename.rsplit('.', 1)[1]` guarded by `'.' in filename`: the
substring after the final `.`, or `none` when the string has no `.`. -/
def afterLastDot (s : String) : Option String :=
  if s.data.contains '.' then
    some ⟨ (s.data.reverse.takeWhile (fun c => c != '.')).reverse ⟩
  else
    none

/-- `allowed_file` (routes.py lines 17-19):
`'.' in filename and filename.rsplit('.', 1)[1].lower() in ALLOWED_EXTENSIONS`. -/
def allowed_file (filename : String) : Bool :=
  filename.data.contains '.' &&
    (match afterLastDot filename with
     | some ext => ALLOWED_EXTENSIONS.contains (pyLower ext)
     | none => false)

/-- The extension component of Python `os.path.splitext` (posixpath): the part
of the string from its last `.` onwards, provided that dot lies after the last
`/` and some character strictly between the last `/` and that dot is not a `.`
(so names made of leading dots only, such as `".png"`, have no extension). -/
def splitext_ext (s : String) : String :=
  let base := (s.data.reverse.takeWhile (fun c => c != '/')).reverse
  if base.contains '.' then
    let after := base.reverse.takeWhile (fun c => c != '.')
    let pre := base.take (base.length - (after.length + 1))
    if pre.any (fun c => c != '.') then ⟨ '.' :: after.reverse ⟩ else ""
  else ""

/-- Python `str.lstrip('.')`. -/
def lstripDot (s : String) : String :=
  ⟨ s.data.dropWhile (fun c => c == '.') ⟩

/-- The body of `get_mimetype` (routes.py lines 21-41) as a function of the
already lowercased `os.path.splitext` extension.  The Python code assigns a
default of `application/octet-stream` and overrides it in the matching branch;
the branches are mutually exclusive so this if-chain is the same function. -/
def mimeFromExt (fe : String) : String :=
  if [ ".mp4", ".avi", ".mov", ".webm", ".flv" ].contains fe then
    if fe == ".mov" then "video/quicktime" else "video/" ++ lstripDot fe
  else if [ ".jpg", ".jpeg", ".png", ".gif", ".bmp", ".webp", ".tiff", ".tif" ].contains fe then
    if fe == ".jpeg" then "image/jpeg"
    else if fe == ".tiff" || fe == ".tif" then "image/tiff"
    else "image/" ++ lstripDot fe
  else if [ ".mp3", ".wav", ".ogg", ".flac" ].contains fe then
    "audio/" ++ lstripDot fe
  else if fe == ".pdf" then "application/pdf"
  else "application/octet-stream"

/-- `get_mimetype` (routes.py lines 21-41):
`file_extension = os.path.splitext(filename)[1].lower()` then the static
extension table. -/
def get_mimetype (filename : String) : String :=
  mimeFromExt (pyLower (splitext_ext filename))

/-! ## werkzeug `secure_filename` (imported at routes.py line 9, used at 418)

Modelled from werkzeug.utils.secure_filename on a POSIX host
(`os.sep = '/'`, `os.path.altsep = None`), restricted to ASCII input, where
the initial NFKD-normalise / ASCII-encode step is the identity:
replace `/` by a space, split on whitespace and re-join with `_`, drop every
character outside `[A-Za-z0-9_.-]`, and strip leading/trailing `.` and `_`. -/

/-- Characters Python `str.split()` (no argument) splits on. -/
def isPySpace (c : Char) : Bool :=
  c == ' ' || c == '\t' || c == '\n' || c == '\x0b' || c == '\x0c' || c == '\r'

/-- Characters kept by werkzeug's `_filename_ascii_strip_re` (`[A-Za-z0-9_.-]`). -/
def isSafeFilenameChar (c : Char) : Bool :=
  c.isAlphanum || c == '_' || c == '.' || c == '-'

/-- Python `str.split()`: split on runs of whitespace, dropping empty parts. -/
def pySplitAux : List Char → List Char → List (List Char)
  | [], acc => if acc.isEmpty then [] else [acc.reverse]
  | c :: cs, acc =>
    if isPySpace c then
      if acc.isEmpty then pySplitAux cs [] else acc.reverse :: pySplitAux cs []
    else pySplitAux cs (c :: acc)

/-- Python `str.strip("._")`: drop leading and trailing `.` and `_`. -/
def pyStripDotUnderscore (cs : List Char) : List Char :=
  ((cs.dropWhile (fun c => c == '.' || c == '_')).reverse.dropWhile
      (fun c => c == '.' || c == '_')).reverse

/-- werkzeug `secure_filename` (ASCII fragment, POSIX). -/
def secure_filename (s : String) : String :=
  let s1 := s.data.map (fun c => if c == '/' then ' ' else c)
  let joined := List.intercalate ['_'] (pySplitAux s1 [])
  ⟨ pyStripDotUnderscore (joined.filter isSafeFilenameChar) ⟩

/-! ## Data model (src/backend/app/models.py)

Only the columns the media subsystem reads or writes are carried.  `order` is
a nullable integer column, hence `Option Int`. -/

/-- A row of the `Listing` table (models.py lines 21-37); `user_id` is the
owner used by every authorization check. -/
structure ListingRec where
  id : Int
  user_id : Int
deriving DecidableEq, Repr

/-- A row of the `Media` table (models.py lines 39-50). -/
structure MediaRec where
  id : Int
  listing_id : Int
  filename : String
  file_extension : String
  mimetype : String
  media_type : String
  order : Option Int
deriving DecidableEq, Repr

/-- A stored file, identified by the path components
`MEDIA_FOLDER/<listing_id>/<media_type>/<filename>` used by
`upload_listing_media` (routes.py lines 435-443) and `delete_media`
(lines 496-501). -/
abbrev DiskFile := Int × String × String

/-- The persistent state the media subsystem touches: users (only their ids
matter), listings, committed media rows, the media directory contents, and the
autoincrement counter supplying primary keys for new media rows. -/
structure AppState where
  users : List Int
  listings : List ListingRec
  media : List MediaRec
  disk : List DiskFile
  nextMediaId : Int
deriving DecidableEq, Repr

/-! ## Order computation (routes.py lines 446-448)

`db.session.query(db.func.max(Media.order)).filter_by(listing_id=...)`:
SQL `MAX` over the non-null `order` values of the listing's rows, `NULL` when
there are none; then `(max if not None else -1) + 1`. -/

/-- Left fold of `max` used to express SQL `MAX` over a nonempty list. -/
def foldMax : Int → List Int → Int
  | x, [] => x
  | x, y :: ys => foldMax (max x y) ys

/-- SQL `MAX` over a column: `none` on the empty bag. -/
def maxInt? : List Int → Option Int
  | [] => none
  | x :: xs => some (foldMax x xs)

/-- The non-null `order` values of a listing's media rows. -/
def ordersOf (lid : Int) (rows : List MediaRec) : List Int :=
  (rows.filter (fun m => m.listing_id == lid)).filterMap (fun m => m.order)

/-- `new_order = (max_order_result if max_order_result is not None else -1) + 1`
(routes.py lines 447-448). -/
def nextOrder (lid : Int) (rows : List MediaRec) : Int :=
  (maxInt? (ordersOf lid rows)).getD (-1) + 1

/-! ## Upload orchestration (routes.py lines 386-472) -/

/-- One entry of `request.files.getlist('files')`: its client-supplied
filename, the `uuid.uuid4()` value the identifier generator yields for it
(routes.py line 431, an oracle input here), and whether the filesystem write
`file.save(file_path)` (line 444) succeeds. -/
structure FileUpload where
  filename : String
  uuid : String
  saveOk : Bool
deriving DecidableEq, Repr

/-- The ways a single file can make the upload loop stop: the early `return`s
at routes.py lines 415 (`400`), 465 (`415`), 428 (`415`), and the two
uncaught-exception paths, the `IndexError` from
`original_filename.rsplit('.', 1)[1]` at line 419 when the sanitized name has
no dot, and an `OSError` escaping `file.save` — both surface as HTTP 500. -/
inductive UploadErr where
  | badRequest
  | unsupportedFile
  | unsupportedType (mimetype : String)
  | indexError
  | storageError
deriving DecidableEq, Repr

/-- HTTP status code of each upload-loop error. -/
def errCode : UploadErr → Nat
  | .badRequest => 400
  | .unsupportedFile => 415
  | .unsupportedType _ => 415
  | .indexError => 500
  | .storageError => 500

/-- Per-request accumulator: media rows added to the session (flushed, visible
to in-transaction queries, not committed), the disk contents, and the next
primary key. -/
structure UploadAcc where
  pending : List MediaRec
  disk : List DiskFile
  nextId : Int
deriving DecidableEq, Repr

/-- The admissibility and classification steps of one loop iteration
(routes.py lines 414-428): empty-name check, `allowed_file` on the raw name,
extension extraction from `secure_filename(file.filename)` (an `IndexError`
when the sanitized name has no dot), `get_mimetype(file.filename)` on the raw
name, and the image/video prefix dispatch.  Returns
`(file_extension, mimetype, media_type)`. -/
def classify_file (filename : String) : Except UploadErr (String × String × String) :=
  if filename = "" then .error .badRequest
  else if allowed_file filename then
    match afterLastDot (secure_filename filename) with
    | none => .error .indexError
    | some e =>
      let mimetype := get_mimetype filename
      if strStartsWith mimetype "image/" then .ok (pyLower e, mimetype, "image")
      else if strStartsWith mimetype "video/" then .ok (pyLower e, mimetype, "video")
      else .error (.unsupportedType mimetype)
  else .error .unsupportedFile

/-- One iteration of the upload loop (routes.py lines 413-463): classify,
save the bytes to `MEDIA_FOLDER/listing_id/media_type/uuid.ext`, query the
current max order (the session sees the flushed rows of this request), and
add-and-flush the new `Media` row.  `base` is the committed table. -/
def processOneFile (base : List MediaRec) (lid : Int) (acc : UploadAcc)
    (f : FileUpload) : Except UploadErr UploadAcc :=
  match classify_file f.filename with
  | .error e => .error e
  | .ok (file_extension, mimetype, media_type) =>
    if f.saveOk then
      let unique_filename := f.uuid ++ "." ++ file_extension
      let new_order := nextOrder lid (base ++ acc.pending)
      let row : MediaRec :=
        ⟨ acc.nextId, lid, unique_filename, file_extension, mimetype, media_type,
          some new_order ⟩
      .ok ⟨ acc.pending ++ [row], acc.disk ++ [(lid, media_type, unique_filename)],
            acc.nextId + 1 ⟩
    else .error .storageError

/-- The `for file in uploaded_files` loop: stop at the first failing file,
returning the accumulator reached so far (saved files stay on disk; the
session rows are not yet committed). -/
def uploadLoop (base : List MediaRec) (lid : Int) :
    List FileUpload → UploadAcc → Option UploadErr × UploadAcc
  | [], acc => (none, acc)
  | f :: fs, acc =>
    match processOneFile base lid acc f with
    | .error e => (some e, acc)
    | .ok acc' => uploadLoop base lid fs acc'

/-- `upload_listing_media` (routes.py lines 386-472).  Returns the HTTP status
code, the state after the request (a failure return skips `db.session.commit()`
and the request-teardown rollback discards the flushed rows, so only the disk
retains per-file effects), and the list of created rows (the serialized
`uploaded_media_data`). -/
def upload_listing_media (st : AppState) (uid lid : Int)
    (files : Option (List FileUpload)) : Nat × AppState × List MediaRec :=
  if uid ∉ st.users then (404, st, [])
  else match st.listings.find? (fun l => l.id == lid) with
  | none => (404, st, [])
  | some listing =>
    if listing.user_id ≠ uid then (403, st, [])
    else match files with
    | none => (400, st, [])
    | some fs =>
      if fs = [] then (400, st, [])
      else match uploadLoop st.media lid fs ⟨ [], st.disk, st.nextMediaId ⟩ with
      | (some e, acc) => (errCode e, { st with disk := acc.disk }, [])
      | (none, acc) =>
        (201, { st with media := st.media ++ acc.pending, disk := acc.disk,
                        nextMediaId := acc.nextId }, acc.pending)

/-! ## Media deletion (routes.py lines 474-518) -/

/-- `delete_media`.  `removeFails` is an oracle for an `OSError` raised by
`os.remove` (routes.py lines 504-512): the handler logs and continues, so the
file stays but the catalog row is still deleted and the request returns 204.
When the file path does not exist, `os.remove` is not attempted at all. -/
def delete_media (st : AppState) (uid mid : Int) (removeFails : Bool) :
    Nat × AppState :=
  match st.media.find? (fun x => x.id == mid) with
  | none => (404, st)
  | some media_item =>
    match st.listings.find? (fun l => l.id == media_item.listing_id) with
    | none => (404, st)
    | some listing =>
      if listing.user_id ≠ uid then (403, st)
      else
        let media_path : DiskFile :=
          (media_item.listing_id, media_item.media_type, media_item.filename)
        let disk' :=
          if media_path ∈ st.disk ∧ removeFails = false then
            st.disk.filter (fun p => decide (p ≠ media_path))
          else st.disk
        (204, { st with disk := disk',
                        media := st.media.filter (fun r => decide (r.id ≠ mid)) })

/-! ## Listing and user deletion (routes.py lines 210-225 and 357-371)

`db.session.delete(listing)` triggers the relationship cascade
`cascade="all, delete-orphan"` declared at models.py line 34: the listing's
`Media` rows are deleted with it.  Nothing in `delete_listing` touches the
filesystem.  `delete_user` (routes.py lines 210-225) likewise cascades through
the user's listings (models.py line 16) to their media rows. -/

/-- `delete_listing` (routes.py lines 357-371). -/
def delete_listing (st : AppState) (uid lid : Int) : Nat × AppState :=
  match st.listings.find? (fun l => l.id == lid) with
  | none => (404, st)
  | some listing =>
    if listing.user_id ≠ uid then (403, st)
    else
      (204, { st with listings := st.listings.filter (fun l => decide (l.id ≠ lid)),
                      media := st.media.filter (fun m => decide (m.listing_id ≠ lid)) })

/-- `delete_user` (routes.py lines 210-225): the authenticated user deletes
their own account; listings cascade, and each owned listing's media cascade. -/
def delete_user (st : AppState) (uid : Int) : Nat × AppState :=
  if uid ∉ st.users then (404, st)
  else
    (204, { st with
      users := st.users.filter (fun u => decide (u ≠ uid)),
      listings := st.listings.filter (fun l => decide (l.user_id ≠ uid)),
      media := st.media.filter
        (fun m => !(st.listings.any (fun l => l.id == m.listing_id && l.user_id == uid))) })

/-! ## Media reordering (routes.py lines 520-600) -/

/-- The JSON body of the reorder endpoint after the validation at routes.py
lines 537-550: either well-formed (`media_ids` present, a list, all elements
integers) or malformed in one of the three rejected ways. -/
inductive ReorderBody where
  | malformed
  | ids (l : List Int)
deriving DecidableEq, Repr

/-- The lookup key for `listing_media.get(media_id)` combined with the
`media_item.listing_id != listing.id` re-check (routes.py lines 563-572): the
dictionary is built from this listing's media only, so a hit has both the
requested id and this listing's id. -/
def mediaKey (lid mid : Int) (m : MediaRec) : Bool :=
  m.id == mid && m.listing_id == lid

/-- The in-place mutation `media_item.order = index` of the looked-up row. -/
def setOrderFn (lid mid : Int) (idx : Nat) (x : MediaRec) : MediaRec :=
  if mediaKey lid mid x then { x with order := some (idx : Int) } else x

/-- One iteration of the reorder loop (routes.py lines 568-585): look the id
up among this listing's media; skip silently when absent; update the order
only when it differs from `index`, counting the update. -/
def reorderStep (lid : Int) (media : List MediaRec) (idx : Nat) (mid : Int) :
    List MediaRec × Nat :=
  match media.find? (mediaKey lid mid) with
  | none => (media, 0)
  | some m =>
    if m.order = some (idx : Int) then (media, 0)
    else (media.map (setOrderFn lid mid idx), 1)

/-- `for index, media_id in enumerate(media_ids_ordered)` with the running
`updated_count` (routes.py lines 565-584). -/
def applyReorderAux (lid : Int) :
    List Int → List MediaRec → Nat → Nat → List MediaRec × Nat
  | [], media, cnt, _ => (media, cnt)
  | mid :: rest, media, cnt, idx =>
    let p := reorderStep lid media idx mid
    applyReorderAux lid rest p.1 (cnt + p.2) (idx + 1)

/-- `media_order` (routes.py lines 520-600).  Returns the HTTP status code,
the reported `updated_count`, and the state after the request. -/
def media_order (st : AppState) (uid lid : Int) (body : ReorderBody) :
    Nat × Nat × AppState :=
  if uid ∉ st.users then (404, 0, st)
  else match st.listings.find? (fun l => l.id == lid) with
  | none => (404, 0, st)
  | some listing =>
    if listing.user_id ≠ uid then (403, 0, st)
    else match body with
    | .malformed => (400, 0, st)
    | .ids media_ids_ordered =>
      let p := applyReorderAux lid media_ids_ordered st.media 0 0
      (200, p.2, { st with media := p.1 })

/-! ## Concrete fixtures used by witnesses and counterexamples -/

/-- A listing with id 1 owned by user 1. -/
def exListing : ListingRec := ⟨1, 1⟩

/-- Media id 11 of listing 1, at order 0. -/
def exMediaA : MediaRec := ⟨11, 1, "a.png", "png", "image/png", "image", some 0⟩

/-- Media id 12 of listing 1, at order 1. -/
def exMediaB : MediaRec := ⟨12, 1, "b.png", "png", "image/png", "image", some 1⟩

/-- User 1 owning listing 1 with media `[id 11 (order 0), id 12 (order 1)]`. -/
def exSt : AppState := ⟨[1], [exListing], [exMediaA, exMediaB], [], 100⟩

/-- `exSt` after reordering with the sequence `[12, 11]`. -/
def exStAfter : AppState :=
  ⟨[1], [exListing],
   [⟨11, 1, "a.png", "png", "image/png", "image", some 1⟩,
    ⟨12, 1, "b.png", "png", "image/png", "image", some 0⟩], [], 100⟩

/-- An upload of `a.png` whose filesystem write succeeds. -/
def fPng : FileUpload := ⟨"a.png", "u1", true⟩

/-- An upload of `telescope.MOV` whose filesystem write succeeds. -/
def fMov : FileUpload := ⟨"telescope.MOV", "u1", true⟩

/-- An upload of `a.jpg` whose filesystem write succeeds. -/
def fJpg : FileUpload := ⟨"a.jpg", "u1", true⟩

/-- An upload of `b.mp4` whose filesystem write succeeds. -/
def fMp4 : FileUpload := ⟨"b.mp4", "u2", true⟩

/-- An upload with the disallowed extension `txt`. -/
def fTxt : FileUpload := ⟨"b.txt", "u2", true⟩

/-- An upload whose client-supplied filename is empty. -/
def fEmpty : FileUpload := ⟨"", "u2", true⟩

/-- An empty per-request accumulator with next primary key 1. -/
def accInit : UploadAcc := ⟨[], [], 1⟩

/-- User 1 owning listing 1 whose single media row has order 4. -/
def stUp : AppState :=
  ⟨[1], [exListing], [⟨11, 1, "old.png", "png", "image/png", "image", some 4⟩], [], 20⟩

/-- User 1 owning listing 1 with no media yet. -/
def stC9 : AppState := ⟨[1], [exListing], [], [], 1⟩

/-- Users 1 and 2; listing 1 is owned by user 2 and has media id 11. -/
def stOther : AppState :=
  ⟨[1, 2], [⟨1, 2⟩], [⟨11, 1, "a.png", "png", "image/png", "image", some 0⟩], [], 5⟩

/-- User 1 owning listing 1 with media id 11 whose file is on disk. -/
def stDel : AppState :=
  ⟨[1], [exListing], [exMediaA], [(1, "image", "a.png")], 9⟩

/-- The row created for `fJpg` when uploaded to `stUp`. -/
def rowJpg : MediaRec := ⟨20, 1, "u1.jpg", "jpg", "image/jpg", "image", some 5⟩

/-- The row created for `fMp4` when uploaded to `stUp` after `fJpg`. -/
def rowMp4 : MediaRec := ⟨21, 1, "u2.mp4", "mp4", "video/mp4", "video", some 6⟩

/-- `stUp` after the successful upload of `[fJpg, fMp4]`. -/
def stUpAfter : AppState :=
  ⟨[1], [exListing],
   [⟨11, 1, "old.png", "png", "image/png", "image", some 4⟩, rowJpg, rowMp4],
   [(1, "image", "u1.jpg"), (1, "video", "u2.mp4")], 22⟩

/-- The accumulator at which the upload of `[fJpg, fTxt]` to `stUp` fails. -/
def accC5 : UploadAcc := ⟨[rowJpg], [(1, "image", "u1.jpg")], 21⟩

/-- User 1 owning listing 1 with one media row whose file is on disk. -/
def stC8 : AppState :=
  ⟨[1], [exListing], [⟨11, 1, "f.png", "png", "image/png", "image", some 0⟩],
   [(1, "image", "f.png")], 50⟩

/-! # Lemmas about the order column -/

theorem foldMax_snoc (k : Int) :
    ∀ (l : List Int) (x : Int), foldMax x (l ++ [k]) = max (foldMax x l) k := by
  intro l
  induction l with
  | nil => intro x; rfl
  | cons y ys ih =>
    intro x
    show foldMax (max x y) (ys ++ [k]) = max (foldMax (max x y) ys) k
    exact ih (max x y)

theorem maxInt?_snoc (l : List Int) (k : Int) :
    maxInt? (l ++ [k]) = some (max ((maxInt? l).getD k) k) := by
  cases l with
  | nil => simp [maxInt?, foldMax]
  | cons x xs =>
    show some (foldMax x (xs ++ [k])) = _
    rw [foldMax_snoc]
    rfl

theorem nextOrder_snoc (lid : Int) (rows : List MediaRec) (r : MediaRec)
    (h1 : r.listing_id = lid) (h2 : r.order = some (nextOrder lid rows)) :
    nextOrder lid (rows ++ [r]) = nextOrder lid rows + 1 := by
  have hfil : ordersOf lid (rows ++ [r]) = ordersOf lid rows ++ [nextOrder lid rows] := by
    unfold ordersOf
    rw [List.filter_append, List.filterMap_append]
    congr 1
    simp [h1, h2]
  have hN : (maxInt? (ordersOf lid rows)).getD (nextOrder lid rows) ≤ nextOrder lid rows := by
    cases hmax : maxInt? (ordersOf lid rows) with
    | none => simp
    | some m => simp [nextOrder, hmax]
  show (maxInt? (ordersOf lid (rows ++ [r]))).getD (-1) + 1 = _
  rw [hfil, maxInt?_snoc]
  simp only [Option.getD_some]
  rw [max_eq_right hN]

/-! # Lemmas about classification and the upload loop -/

theorem get_mimetype_mov (s : String) (h : pyLower (splitext_ext s) = ".mov") :
    get_mimetype s = "video/quicktime" := by
  unfold get_mimetype
  rw [h]
  rfl

theorem classify_file_ok (fn ext mt cat : String)
    (h : classify_file fn = .ok (ext, mt, cat)) :
    mt = get_mimetype fn ∧
    ((strStartsWith mt "image/" = true ∧ cat = "image") ∨
     (strStartsWith mt "video/" = true ∧ cat = "video")) := by
  simp only [classify_file] at h
  split at h
  · exact absurd h (by simp)
  split at h
  case isFalse => exact absurd h (by simp)
  split at h
  · exact absurd h (by simp)
  split at h
  · rename_i himg
    simp only [Except.ok.injEq, Prod.mk.injEq] at h
    obtain ⟨-, h2, h3⟩ := h
    subst h2; subst h3
    exact ⟨rfl, Or.inl ⟨himg, rfl⟩⟩
  split at h
  · rename_i hvid
    simp only [Except.ok.injEq, Prod.mk.injEq] at h
    obtain ⟨-, h2, h3⟩ := h
    subst h2; subst h3
    exact ⟨rfl, Or.inr ⟨hvid, rfl⟩⟩
  · exact absurd h (by simp)

theorem processOneFile_ok (base : List MediaRec) (lid : Int) (acc acc' : UploadAcc)
    (f : FileUpload) (h : processOneFile base lid acc f = .ok acc') :
    ∃ row : MediaRec,
      acc'.pending = acc.pending ++ [row] ∧
      acc'.disk = acc.disk ++ [(lid, row.media_type, row.filename)] ∧
      acc'.nextId = acc.nextId + 1 ∧
      row.listing_id = lid ∧
      row.order = some (nextOrder lid (base ++ acc.pending)) ∧
      row.mimetype = get_mimetype f.filename ∧
      ((strStartsWith row.mimetype "image/" = true ∧ row.media_type = "image") ∨
       (strStartsWith row.mimetype "video/" = true ∧ row.media_type = "video")) := by
  unfold processOneFile at h
  cases hc : classify_file f.filename with
  | error e => rw [hc] at h; exact Except.noConfusion h
  | ok t =>
    obtain ⟨ext, mt, cat⟩ := t
    rw [hc] at h
    dsimp only at h
    by_cases hs : f.saveOk = true
    · rw [if_pos hs] at h
      simp only [Except.ok.injEq] at h
      subst h
      obtain ⟨hmt, hcases⟩ := classify_file_ok f.filename ext mt cat hc
      exact ⟨⟨acc.nextId, lid, f.uuid ++ "." ++ ext, ext, mt, cat,
              some (nextOrder lid (base ++ acc.pending))⟩,
             rfl, rfl, rfl, rfl, rfl, hmt, hcases⟩
    · rw [if_neg hs] at h
      exact Except.noConfusion h

theorem uploadLoop_ok_pending (base : List MediaRec) (lid : Int) :
    ∀ (fs : List FileUpload) (acc acc' : UploadAcc),
      uploadLoop base lid fs acc = (none, acc') →
      ∃ rows : List MediaRec,
        acc'.pending = acc.pending ++ rows ∧
        rows.map (fun m => m.order) =
          (List.range fs.length).map
            (fun i : Nat => some (nextOrder lid (base ++ acc.pending) + (i : Int))) := by
  intro fs
  induction fs with
  | nil =>
    intro acc acc' h
    simp only [uploadLoop, Prod.mk.injEq] at h
    obtain ⟨-, rfl⟩ := h
    exact ⟨[], by simp, by simp⟩
  | cons f fs ih =>
    intro acc acc' h
    simp only [uploadLoop] at h
    cases hp : processOneFile base lid acc f with
    | error e => rw [hp] at h; simp at h
    | ok acc1 =>
      rw [hp] at h
      obtain ⟨row, hpend, -, -, hlid, horder, -, -⟩ := processOneFile_ok _ _ _ _ _ hp
      obtain ⟨rows, hpend', hmap⟩ := ih acc1 acc' h
      refine ⟨row :: rows, ?_, ?_⟩
      · rw [hpend', hpend, List.append_assoc]
        rfl
      · have hN : nextOrder lid (base ++ acc1.pending) =
            nextOrder lid (base ++ acc.pending) + 1 := by
          rw [hpend, ← List.append_assoc]
          exact nextOrder_snoc lid (base ++ acc.pending) row hlid horder
        rw [List.length_cons, List.range_succ_eq_map, List.map_cons, List.map_cons,
          List.map_map]
        congr 1
        · rw [horder]; simp
        · rw [hmap, hN]
          apply List.map_congr_left
          intro i _
          simp only [Function.comp_apply]
          congr 1
          push_cast
          ring

theorem uploadLoop_disk (base : List MediaRec) (lid : Int) :
    ∀ (fs : List FileUpload) (acc : UploadAcc),
      ∃ extra : List DiskFile,
        ((uploadLoop base lid fs acc).2).disk = acc.disk ++ extra := by
  intro fs
  induction fs with
  | nil => intro acc; exact ⟨[], by simp [uploadLoop]⟩
  | cons f fs ih =>
    intro acc
    simp only [uploadLoop]
    cases hp : processOneFile base lid acc f with
    | error e => exact ⟨[], by simp⟩
    | ok acc1 =>
      obtain ⟨row, -, hdisk, -, -, -, -, -⟩ := processOneFile_ok _ _ _ _ _ hp
      obtain ⟨extra, hex⟩ := ih acc1
      exact ⟨(lid, row.media_type, row.filename) :: extra, by rw [hex, hdisk]; simp⟩

/-- Every outcome of the upload endpoint leaves users and listings unchanged,
only ever appends to the disk, and — when the request did not succeed with
201 — leaves the committed media table unchanged and returns no rows. -/
theorem upload_frame (st : AppState) (uid lid : Int) (files : Option (List FileUpload))
    (c : Nat) (st' : AppState) (rows : List MediaRec)
    (h : upload_listing_media st uid lid files = (c, st', rows)) :
    st'.users = st.users ∧ st'.listings = st.listings ∧
    (∃ extra, st'.disk = st.disk ++ extra) ∧
    (c ≠ 201 → st'.media = st.media ∧ rows = []) := by
  unfold upload_listing_media at h
  split at h
  · simp only [Prod.mk.injEq] at h
    obtain ⟨rfl, rfl, rfl⟩ := h
    exact ⟨rfl, rfl, ⟨[], by simp⟩, fun _ => ⟨rfl, rfl⟩⟩
  split at h
  · simp only [Prod.mk.injEq] at h
    obtain ⟨rfl, rfl, rfl⟩ := h
    exact ⟨rfl, rfl, ⟨[], by simp⟩, fun _ => ⟨rfl, rfl⟩⟩
  split at h
  · simp only [Prod.mk.injEq] at h
    obtain ⟨rfl, rfl, rfl⟩ := h
    exact ⟨rfl, rfl, ⟨[], by simp⟩, fun _ => ⟨rfl, rfl⟩⟩
  split at h
  · simp only [Prod.mk.injEq] at h
    obtain ⟨rfl, rfl, rfl⟩ := h
    exact ⟨rfl, rfl, ⟨[], by simp⟩, fun _ => ⟨rfl, rfl⟩⟩
  rename_i fs
  split at h
  · simp only [Prod.mk.injEq] at h
    obtain ⟨rfl, rfl, rfl⟩ := h
    exact ⟨rfl, rfl, ⟨[], by simp⟩, fun _ => ⟨rfl, rfl⟩⟩
  split at h
  · rename_i e acc heq
    simp only [Prod.mk.injEq] at h
    obtain ⟨rfl, rfl, rfl⟩ := h
    obtain ⟨extra, hd⟩ := uploadLoop_disk st.media lid fs ⟨[], st.disk, st.nextMediaId⟩
    rw [heq] at hd
    exact ⟨rfl, rfl, ⟨extra, hd⟩, fun _ => ⟨rfl, rfl⟩⟩
  · rename_i acc heq
    simp only [Prod.mk.injEq] at h
    obtain ⟨rfl, rfl, rfl⟩ := h
    obtain ⟨extra, hd⟩ := uploadLoop_disk st.media lid fs ⟨[], st.disk, st.nextMediaId⟩
    rw [heq] at hd
    exact ⟨rfl, rfl, ⟨extra, hd⟩, fun hc => absurd rfl hc⟩

/-- The upload endpoint under a satisfied precondition chain reduces to the
upload loop. -/
theorem upload_eq_of_owner (st : AppState) (uid lid : Int) (fs : List FileUpload)
    (listing : ListingRec)
    (hu : uid ∈ st.users)
    (hl : st.listings.find? (fun l => l.id == lid) = some listing)
    (hown : listing.user_id = uid)
    (hne : fs ≠ []) :
    upload_listing_media st uid lid (some fs) =
      (match uploadLoop st.media lid fs ⟨ [], st.disk, st.nextMediaId ⟩ with
       | (some e, acc) => (errCode e, { st with disk := acc.disk }, [])
       | (none, acc) =>
         (201, { st with media := st.media ++ acc.pending, disk := acc.disk,
                         nextMediaId := acc.nextId }, acc.pending)) := by
  unfold upload_listing_media
  rw [if_neg (not_not_intro hu), hl]
  dsimp only
  rw [if_neg (not_not_intro hown), if_neg hne]

/-- C2: uploading N files in one request assigns the new rows the order values
`M, M+1, ..., M+N-1` where `M` is one more than the maximum existing order of
the listing's media (`-1` when there is none), i.e. `M = nextOrder`; the
values are consecutive, duplicate-free, and the rows are appended to the
catalog. -/
theorem C2_upload_order_values (st : AppState) (uid lid : Int)
    (fs : List FileUpload) (st' : AppState) (rows : List MediaRec)
    (h : upload_listing_media st uid lid (some fs) = (201, st', rows)) :
    rows.map (fun m => m.order) =
      (List.range fs.length).map
        (fun i : Nat => some (nextOrder lid st.media + (i : Int))) ∧
    (rows.map (fun m => m.order)).Nodup ∧
    st'.media = st.media ++ rows := by
  unfold upload_listing_media at h
  dsimp only at h
  split at h
  · simp only [Prod.mk.injEq] at h; exact absurd h.1 (by decide)
  split at h
  · simp only [Prod.mk.injEq] at h; exact absurd h.1 (by decide)
  split at h
  · simp only [Prod.mk.injEq] at h; exact absurd h.1 (by decide)
  split at h
  · simp only [Prod.mk.injEq] at h; exact absurd h.1 (by decide)
  split at h
  · rename_i e acc heq
    simp only [Prod.mk.injEq] at h
    exact absurd h.1 (by cases e <;> simp [errCode])
  · rename_i acc heq
    simp only [Prod.mk.injEq] at h
    obtain ⟨-, rfl, rfl⟩ := h
    obtain ⟨rows', hpend, hmap⟩ :=
      uploadLoop_ok_pending st.media lid fs ⟨ [], st.disk, st.nextMediaId ⟩ acc heq
    dsimp only at hpend hmap
    rw [List.nil_append] at hpend
    rw [List.append_nil] at hmap
    rw [hpend]
    have hinj : Function.Injective
        (fun i : Nat => some (nextOrder lid st.media + (i : Int))) := by
      intro a b hab
      simp only [Option.some.injEq, add_right_inj] at hab
      exact_mod_cast hab
    exact ⟨hmap, by rw [hmap]; exact List.Nodup.map hinj (List.nodup_range _), rfl⟩

/-- C5: when any file of the request fails classification or storage, the
upload endpoint returns that file's error code (never 201), the committed
media table is unchanged (the flushed rows of the request are discarded,
never committed), and the disk keeps everything written before the failure
(the initial disk is a prefix of the final one). -/
theorem C5_abort_uncommitted (st : AppState) (uid lid : Int) (fs : List FileUpload)
    (listing : ListingRec) (e : UploadErr) (acc : UploadAcc)
    (hu : uid ∈ st.users)
    (hl : st.listings.find? (fun l => l.id == lid) = some listing)
    (hown : listing.user_id = uid)
    (hne : fs ≠ [])
    (hloop : uploadLoop st.media lid fs ⟨ [], st.disk, st.nextMediaId ⟩ = (some e, acc)) :
    upload_listing_media st uid lid (some fs) =
      (errCode e, { st with disk := acc.disk }, []) ∧
    errCode e ≠ 201 ∧
    ({ st with disk := acc.disk } : AppState).media = st.media ∧
    (∃ extra, acc.disk = st.disk ++ extra) := by
  refine ⟨?_, by cases e <;> simp [errCode], rfl, ?_⟩
  · rw [upload_eq_of_owner st uid lid fs listing hu hl hown hne, hloop]
  · obtain ⟨extra, hd⟩ := uploadLoop_disk st.media lid fs ⟨ [], st.disk, st.nextMediaId ⟩
    rw [hloop] at hd
    exact ⟨extra, hd⟩

/-- C9 (amended): a request with no file part, an empty file list, or only
empty-named files returns 400 with the state untouched; and every upload
request that ends in 400 has committed no catalog row and returned no rows,
though files written for earlier valid files of the same request remain on
disk (the disk only grows). -/
theorem C9_upload_badrequest (st : AppState) (uid lid : Int) (listing : ListingRec)
    (hu : uid ∈ st.users)
    (hl : st.listings.find? (fun l => l.id == lid) = some listing)
    (hown : listing.user_id = uid) :
    upload_listing_media st uid lid none = (400, st, []) ∧
    (∀ fs : List FileUpload, (∀ f ∈ fs, f.filename = "") →
      upload_listing_media st uid lid (some fs) = (400, st, [])) ∧
    (∀ (files : Option (List FileUpload)) (st' : AppState) (rows : List MediaRec),
      upload_listing_media st uid lid files = (400, st', rows) →
      st'.media = st.media ∧ rows = [] ∧ ∃ extra, st'.disk = st.disk ++ extra) := by
  refine ⟨?_, ?_, ?_⟩
  · unfold upload_listing_media
    rw [if_neg (not_not_intro hu), hl]
    dsimp only
    rw [if_neg (not_not_intro hown)]
  · intro fs hall
    cases fs with
    | nil =>
      unfold upload_listing_media
      rw [if_neg (not_not_intro hu), hl]
      dsimp only
      rw [if_neg (not_not_intro hown), if_pos rfl]
    | cons f fs' =>
      rw [upload_eq_of_owner st uid lid (f :: fs') listing hu hl hown (by simp)]
      have hcl : classify_file f.filename = .error .badRequest := by
        have hf : f.filename = "" := hall f (List.mem_cons_self f fs')
        simp [classify_file, hf]
      have hloop : uploadLoop st.media lid (f :: fs') ⟨ [], st.disk, st.nextMediaId ⟩ =
          (some .badRequest, ⟨ [], st.disk, st.nextMediaId ⟩) := by
        simp [uploadLoop, processOneFile, hcl]
      rw [hloop]
      rfl
  · intro files st' rows h
    obtain ⟨-, -, hdisk, hmedia⟩ := upload_frame st uid lid files 400 st' rows h
    obtain ⟨hm, hr⟩ := hmedia (by decide)
    exact ⟨hm, hr, hdisk⟩

/-- C9 (counterexample to the claim as stated): the request
`[a.png, <empty name>]` by the owner ends in 400, yet `a.png` was already
written to storage, so "whenever an upload request ends in BadRequest no file
has been written" is false on the code.  No catalog row was created. -/
theorem C9_counterexample :
    (upload_listing_media stC9 1 1 (some [fPng, fEmpty])).1 = 400 ∧
    (upload_listing_media stC9 1 1 (some [fPng, fEmpty])).2.1.disk ≠ stC9.disk ∧
    (upload_listing_media stC9 1 1 (some [fPng, fEmpty])).2.1.media = stC9.media := by
  refine ⟨rfl, by decide, rfl⟩

/-- C1 (amended): every file the upload loop accepts yields a row whose MIME
type is the classifier's static-table value for the raw filename; an `image/`
prefix yields stored category `image` (not `photo`), a `video/` prefix yields
`video`; that category is the path segment of the stored file; and a filename
whose `splitext` extension is `.mov` (case-insensitively) gets MIME type
`video/quicktime`. -/
theorem C1_classified_category (base : List MediaRec) (lid : Int)
    (acc acc' : UploadAcc) (f : FileUpload)
    (h : processOneFile base lid acc f = .ok acc') :
    ∃ row : MediaRec,
      acc'.pending = acc.pending ++ [row] ∧
      row.mimetype = get_mimetype f.filename ∧
      ((strStartsWith row.mimetype "image/" = true ∧ row.media_type = "image") ∨
       (strStartsWith row.mimetype "video/" = true ∧ row.media_type = "video")) ∧
      acc'.disk = acc.disk ++ [(lid, row.media_type, row.filename)] ∧
      (pyLower (splitext_ext f.filename) = ".mov" → row.mimetype = "video/quicktime") := by
  obtain ⟨row, hpend, hdisk, -, -, -, hmime, hcases⟩ := processOneFile_ok _ _ _ _ _ h
  exact ⟨row, hpend, hmime, hcases, hdisk,
    fun hmov => by rw [hmime, get_mimetype_mov _ hmov]⟩

/-- C1 (counterexample to the claim as stated): uploading `a.png` stores a row
whose `media_type` — also the path segment on disk — is `image`, not the
`photo` the claim requires for `image/*` MIME types. -/
theorem C1_counterexample :
    processOneFile [] 1 accInit fPng =
      .ok ⟨ [⟨1, 1, "u1.png", "png", "image/png", "image", some 0⟩],
            [(1, "image", "u1.png")], 2 ⟩ ∧
    ¬ (∀ acc' : UploadAcc, processOneFile [] 1 accInit fPng = .ok acc' →
        ∀ row ∈ acc'.pending, row.media_type = "photo") := by
  refine ⟨rfl, ?_⟩
  intro hcl
  have hrow := hcl ⟨ [⟨1, 1, "u1.png", "png", "image/png", "image", some 0⟩],
      [(1, "image", "u1.png")], 2 ⟩ rfl
      ⟨1, 1, "u1.png", "png", "image/png", "image", some 0⟩ (by simp)
  exact absurd hrow (by decide)

/-- C1 witness: `telescope.MOV` is stored with MIME type `video/quicktime`
and category `video`, which is also its path segment on disk. -/
theorem C1_witness :
    processOneFile [] 1 accInit fMov =
      .ok ⟨ [⟨1, 1, "u1.mov", "mov", "video/quicktime", "video", some 0⟩],
            [(1, "video", "u1.mov")], 2 ⟩ ∧
    (∃ row : MediaRec,
      (⟨ [⟨1, 1, "u1.mov", "mov", "video/quicktime", "video", some 0⟩],
         [(1, "video", "u1.mov")], 2 ⟩ : UploadAcc).pending =
        accInit.pending ++ [row] ∧
      row.mimetype = get_mimetype fMov.filename ∧
      ((strStartsWith row.mimetype "image/" = true ∧ row.media_type = "image") ∨
       (strStartsWith row.mimetype "video/" = true ∧ row.media_type = "video")) ∧
      (⟨ [⟨1, 1, "u1.mov", "mov", "video/quicktime", "video", some 0⟩],
         [(1, "video", "u1.mov")], 2 ⟩ : UploadAcc).disk =
        accInit.disk ++ [(1, row.media_type, row.filename)] ∧
      (pyLower (splitext_ext fMov.filename) = ".mov" →
        row.mimetype = "video/quicktime")) :=
  ⟨rfl, C1_classified_category [] 1 accInit _ fMov rfl⟩

/-- C4: the code crashes on an allow-listed filename.  `".png"` passes
`allowed_file`, but `secure_filename` strips the leading dot, leaving `"png"`
with no dot, so `original_filename.rsplit('.', 1)[1]` raises `IndexError`
(HTTP 500) instead of completing classification with extension `png`. -/
theorem C4_crash_on_dotfile :
    allowed_file ".png" = true ∧
    secure_filename ".png" = "png" ∧
    afterLastDot (secure_filename ".png") = none ∧
    classify_file ".png" = .error .indexError ∧
    errCode .indexError = 500 :=
  ⟨rfl, rfl, rfl, rfl, rfl⟩

/-- C2 witness: uploading two files to a listing whose max existing order is 4
assigns orders 5 and 6. -/
theorem C2_witness :
    upload_listing_media stUp 1 1 (some [fJpg, fMp4]) =
      (201, stUpAfter, [rowJpg, rowMp4]) ∧
    (([rowJpg, rowMp4] : List MediaRec).map (fun m => m.order) =
      (List.range ([fJpg, fMp4] : List FileUpload).length).map
        (fun i : Nat => some (nextOrder 1 stUp.media + (i : Int))) ∧
     (([rowJpg, rowMp4] : List MediaRec).map (fun m => m.order)).Nodup ∧
     stUpAfter.media = stUp.media ++ [rowJpg, rowMp4]) :=
  ⟨rfl, C2_upload_order_values stUp 1 1 [fJpg, fMp4] stUpAfter [rowJpg, rowMp4] rfl⟩

/-- C5 witness: the second file `b.txt` fails the extension check, the request
returns 415, the catalog is unchanged, and `u1.jpg` written for the first file
remains on disk. -/
theorem C5_witness :
    ((1 : Int) ∈ stUp.users ∧
     stUp.listings.find? (fun l => l.id == (1 : Int)) = some exListing ∧
     exListing.user_id = 1 ∧
     ([fJpg, fTxt] : List FileUpload) ≠ [] ∧
     uploadLoop stUp.media 1 [fJpg, fTxt] ⟨ [], stUp.disk, stUp.nextMediaId ⟩ =
       (some .unsupportedFile, accC5)) ∧
    (upload_listing_media stUp 1 1 (some [fJpg, fTxt]) =
      (errCode .unsupportedFile, { stUp with disk := accC5.disk }, []) ∧
     errCode .unsupportedFile ≠ 201 ∧
     ({ stUp with disk := accC5.disk } : AppState).media = stUp.media ∧
     (∃ extra, accC5.disk = stUp.disk ++ extra)) :=
  ⟨⟨by decide, rfl, rfl, by decide, rfl⟩,
   C5_abort_uncommitted stUp 1 1 [fJpg, fTxt] exListing .unsupportedFile accC5
     (by decide) rfl rfl (by decide) rfl⟩

/-- C9 witness: instantiation at a listing owned by the caller. -/
theorem C9_witness :
    ((1 : Int) ∈ stC9.users ∧
     stC9.listings.find? (fun l => l.id == (1 : Int)) = some exListing ∧
     exListing.user_id = 1) ∧
    (upload_listing_media stC9 1 1 none = (400, stC9, []) ∧
     (∀ fs : List FileUpload, (∀ f ∈ fs, f.filename = "") →
       upload_listing_media stC9 1 1 (some fs) = (400, stC9, [])) ∧
     (∀ (files : Option (List FileUpload)) (st' : AppState) (rows : List MediaRec),
       upload_listing_media stC9 1 1 files = (400, st', rows) →
       st'.media = stC9.media ∧ rows = [] ∧ ∃ extra, st'.disk = stC9.disk ++ extra)) :=
  ⟨⟨by decide, rfl, rfl⟩, C9_upload_badrequest stC9 1 1 exListing (by decide) rfl rfl⟩

/-- C6: an authenticated non-owner receives 403 from upload, media-delete and
reorder, whatever the supplied files or body, and nothing in the state
changes: the ownership check decides before any file or body validation. -/
theorem C6_nonowner_forbidden (st : AppState) (uid : Int) :
    (∀ (lid : Int) (listing : ListingRec) (files : Option (List FileUpload)),
      uid ∈ st.users →
      st.listings.find? (fun l => l.id == lid) = some listing →
      listing.user_id ≠ uid →
      upload_listing_media st uid lid files = (403, st, [])) ∧
    (∀ (mid : Int) (m : MediaRec) (listing : ListingRec) (rfail : Bool),
      st.media.find? (fun x => x.id == mid) = some m →
      st.listings.find? (fun l => l.id == m.listing_id) = some listing →
      listing.user_id ≠ uid →
      delete_media st uid mid rfail = (403, st)) ∧
    (∀ (lid : Int) (listing : ListingRec) (body : ReorderBody),
      uid ∈ st.users →
      st.listings.find? (fun l => l.id == lid) = some listing →
      listing.user_id ≠ uid →
      media_order st uid lid body = (403, 0, st)) := by
  refine ⟨?_, ?_, ?_⟩
  · intro lid listing files hu hl hno
    unfold upload_listing_media
    rw [if_neg (not_not_intro hu), hl]
    dsimp only
    rw [if_pos hno]
  · intro mid m listing rfail hm hl hno
    unfold delete_media
    rw [hm]
    dsimp only
    rw [hl]
    dsimp only
    rw [if_pos hno]
  · intro lid listing body hu hl hno
    unfold media_order
    rw [if_neg (not_not_intro hu), hl]
    dsimp only
    rw [if_pos hno]

/-- C6 witness: user 1 attempting the three operations on listing 1, which is
owned by user 2. -/
theorem C6_witness :
    ((1 : Int) ∈ stOther.users ∧
     stOther.listings.find? (fun l => l.id == (1 : Int)) = some ⟨1, 2⟩ ∧
     (⟨1, 2⟩ : ListingRec).user_id ≠ 1 ∧
     stOther.media.find? (fun x => x.id == (11 : Int)) =
       some ⟨11, 1, "a.png", "png", "image/png", "image", some 0⟩) ∧
    upload_listing_media stOther 1 1 none = (403, stOther, []) ∧
    delete_media stOther 1 11 false = (403, stOther) ∧
    media_order stOther 1 1 .malformed = (403, 0, stOther) :=
  ⟨⟨by decide, rfl, by decide, rfl⟩,
   (C6_nonowner_forbidden stOther 1).1 1 ⟨1, 2⟩ none (by decide) rfl (by decide),
   (C6_nonowner_forbidden stOther 1).2.1 11
     ⟨11, 1, "a.png", "png", "image/png", "image", some 0⟩ ⟨1, 2⟩ false rfl rfl
     (by decide),
   (C6_nonowner_forbidden stOther 1).2.2 1 ⟨1, 2⟩ .malformed (by decide) rfl
     (by decide)⟩

/-- C7: an owner-authorized delete of an existing media item always returns
204 and removes the catalog row, whatever the filesystem state; when
`os.remove` does not fail the file is gone from disk afterwards (also when it
was never there), and an `os.remove` failure still removes the row. -/
theorem C7_delete_media_row_authoritative (st : AppState) (uid mid : Int)
    (m : MediaRec) (listing : ListingRec) (rfail : Bool)
    (hm : st.media.find? (fun x => x.id == mid) = some m)
    (hl : st.listings.find? (fun l => l.id == m.listing_id) = some listing)
    (hown : listing.user_id = uid) :
    (delete_media st uid mid rfail).1 = 204 ∧
    (delete_media st uid mid rfail).2.media =
      st.media.filter (fun r => decide (r.id ≠ mid)) ∧
    (∀ r ∈ (delete_media st uid mid rfail).2.media, r.id ≠ mid) ∧
    (rfail = false →
      (m.listing_id, m.media_type, m.filename) ∉ (delete_media st uid mid rfail).2.disk) := by
  have hd : delete_media st uid mid rfail =
      (204, { st with
        disk := if (m.listing_id, m.media_type, m.filename) ∈ st.disk ∧ rfail = false
          then st.disk.filter
            (fun p => decide (p ≠ (m.listing_id, m.media_type, m.filename)))
          else st.disk,
        media := st.media.filter (fun r => decide (r.id ≠ mid)) }) := by
    unfold delete_media
    rw [hm]
    dsimp only
    rw [hl]
    dsimp only
    rw [if_neg (not_not_intro hown)]
  rw [hd]
  refine ⟨rfl, rfl, ?_, ?_⟩
  · intro r hr
    dsimp only at hr
    exact of_decide_eq_true (List.mem_filter.mp hr).2
  · intro hrf
    subst hrf
    dsimp only
    by_cases hmem : (m.listing_id, m.media_type, m.filename) ∈ st.disk
    · rw [if_pos ⟨hmem, rfl⟩]
      intro hin
      exact absurd rfl (of_decide_eq_true (List.mem_filter.mp hin).2)
    · rw [if_neg (fun hc => hmem hc.1)]
      exact hmem

/-- C7 witness: deleting media 11 of listing 1 as its owner. -/
theorem C7_witness :
    (stDel.media.find? (fun x => x.id == (11 : Int)) = some exMediaA ∧
     stDel.listings.find? (fun l => l.id == exMediaA.listing_id) = some exListing ∧
     exListing.user_id = 1) ∧
    ((delete_media stDel 1 11 false).1 = 204 ∧
     (delete_media stDel 1 11 false).2.media =
       stDel.media.filter (fun r => decide (r.id ≠ (11 : Int))) ∧
     (∀ r ∈ (delete_media stDel 1 11 false).2.media, r.id ≠ 11) ∧
     (false = false →
       (exMediaA.listing_id, exMediaA.media_type, exMediaA.filename) ∉
         (delete_media stDel 1 11 false).2.disk)) :=
  ⟨⟨rfl, rfl, rfl⟩,
   C7_delete_media_row_authoritative stDel 1 11 exMediaA exListing false rfl rfl rfl⟩

/-- C8 (counterexample to the claim as stated): deleting listing 1 removes its
media catalog rows but its stored file is still on disk, so "deletes both the
catalog rows and the stored files on disk" is false on the code, which never
touches the filesystem in `delete_listing`. -/
theorem C8_counterexample :
    delete_listing stC8 1 1 = (204, ⟨[1], [], [], [(1, "image", "f.png")], 50⟩) ∧
    (1, "image", "f.png") ∈ (delete_listing stC8 1 1).2.disk ∧
    (delete_listing stC8 1 1).2.media = [] :=
  ⟨rfl, by decide, rfl⟩

/-- C8 (amended): deleting a Listing as its owner cascades to all of the
listing's Media catalog rows, and deleting a User cascades through the user's
Listings to their Media catalog rows; neither cascade removes the stored
files, so both leave the disk untouched. -/
theorem C8_cascade_rows (st : AppState) :
    (∀ (uid lid : Int) (listing : ListingRec),
      st.listings.find? (fun l => l.id == lid) = some listing →
      listing.user_id = uid →
      (delete_listing st uid lid).1 = 204 ∧
      (∀ m ∈ (delete_listing st uid lid).2.media, m.listing_id ≠ lid) ∧
      (delete_listing st uid lid).2.disk = st.disk) ∧
    (∀ uid : Int, uid ∈ st.users →
      (delete_user st uid).1 = 204 ∧
      uid ∉ (delete_user st uid).2.users ∧
      (∀ l ∈ (delete_user st uid).2.listings, l.user_id ≠ uid) ∧
      (∀ m ∈ (delete_user st uid).2.media, ∀ l ∈ st.listings,
        l.user_id = uid → m.listing_id ≠ l.id) ∧
      (delete_user st uid).2.disk = st.disk) := by
  constructor
  · intro uid lid listing hl hown
    have hd : delete_listing st uid lid = (204, { st with
        listings := st.listings.filter (fun l => decide (l.id ≠ lid)),
        media := st.media.filter (fun m => decide (m.listing_id ≠ lid)) }) := by
      unfold delete_listing
      rw [hl]
      dsimp only
      rw [if_neg (not_not_intro hown)]
    rw [hd]
    refine ⟨rfl, ?_, rfl⟩
    intro m hm
    dsimp only at hm
    exact of_decide_eq_true (List.mem_filter.mp hm).2
  · intro uid hu
    have hd : delete_user st uid = (204, { st with
        users := st.users.filter (fun u => decide (u ≠ uid)),
        listings := st.listings.filter (fun l => decide (l.user_id ≠ uid)),
        media := st.media.filter
          (fun m => !(st.listings.any (fun l => l.id == m.listing_id && l.user_id == uid))) }) := by
      unfold delete_user
      rw [if_neg (not_not_intro hu)]
    rw [hd]
    refine ⟨rfl, ?_, ?_, ?_, rfl⟩
    · intro hmem
      dsimp only at hmem
      exact absurd rfl (of_decide_eq_true (List.mem_filter.mp hmem).2)
    · intro l hl
      dsimp only at hl
      exact of_decide_eq_true (List.mem_filter.mp hl).2
    · intro m hm l hl hlu hml
      dsimp only at hm
      have hp := (List.mem_filter.mp hm).2
      have hany : st.listings.any
          (fun l2 => l2.id == m.listing_id && l2.user_id == uid) = true := by
        refine List.any_eq_true.mpr ⟨l, hl, ?_⟩
        rw [hml, hlu]
        simp
      rw [hany] at hp
      exact absurd hp (by decide)

/-- C8 witness: the concrete listing deletion of `stC8` and the deletion of
user 2 in `stOther`. -/
theorem C8_witness :
    (stC8.listings.find? (fun l => l.id == (1 : Int)) = some exListing ∧
     exListing.user_id = 1 ∧ (2 : Int) ∈ stOther.users) ∧
    ((delete_listing stC8 1 1).1 = 204 ∧
     (∀ m ∈ (delete_listing stC8 1 1).2.media, m.listing_id ≠ 1) ∧
     (delete_listing stC8 1 1).2.disk = stC8.disk) ∧
    ((delete_user stOther 2).1 = 204 ∧
     (2 : Int) ∉ (delete_user stOther 2).2.users ∧
     (∀ l ∈ (delete_user stOther 2).2.listings, l.user_id ≠ 2) ∧
     (∀ m ∈ (delete_user stOther 2).2.media, ∀ l ∈ stOther.listings,
       l.user_id = 2 → m.listing_id ≠ l.id) ∧
     (delete_user stOther 2).2.disk = stOther.disk) :=
  ⟨⟨rfl, rfl, by decide⟩,
   (C8_cascade_rows stC8).1 1 1 exListing rfl rfl,
   (C8_cascade_rows stOther).2 2 (by decide)⟩

/-! # Lemmas about the reorder loop -/

theorem find?_map_of_key (g : MediaRec → MediaRec) (p : MediaRec → Bool)
    (hp : ∀ x, p (g x) = p x) :
    ∀ l : List MediaRec, (l.map g).find? p = (l.find? p).map g := by
  intro l
  induction l with
  | nil => rfl
  | cons a t ih =>
    cases hpa : p a with
    | true =>
      have h1 : p (g a) = true := by rw [hp a, hpa]
      rw [List.map_cons, List.find?_cons_of_pos _ h1, List.find?_cons_of_pos _ hpa]
      rfl
    | false =>
      have h1 : p (g a) = false := by rw [hp a, hpa]
      rw [List.map_cons, List.find?_cons_of_neg _ (by simp [h1]),
        List.find?_cons_of_neg _ (by simp [hpa])]
      exact ih

theorem mediaKey_setOrderFn (lid mid lid2 mid2 : Int) (idx : Nat) (x : MediaRec) :
    mediaKey lid2 mid2 (setOrderFn lid mid idx x) = mediaKey lid2 mid2 x := by
  unfold setOrderFn
  split
  · rfl
  · rfl

theorem setOrderFn_of_not_key (lid mid : Int) (idx : Nat) (x : MediaRec)
    (h : mediaKey lid mid x = false) : setOrderFn lid mid idx x = x := by
  unfold setOrderFn
  rw [h]
  rfl

theorem reorderStep_find_none (lid : Int) (media : List MediaRec) (idx : Nat)
    (mid lid2 mid2 : Int)
    (h : media.find? (mediaKey lid2 mid2) = none) :
    ((reorderStep lid media idx mid).1).find? (mediaKey lid2 mid2) = none := by
  unfold reorderStep
  cases hf : media.find? (mediaKey lid mid) with
  | none => exact h
  | some m =>
    dsimp only
    split
    · exact h
    · rw [find?_map_of_key _ _ (fun x => mediaKey_setOrderFn lid mid lid2 mid2 idx x), h]
      rfl

theorem reorderStep_find_other (lid : Int) (media : List MediaRec) (idx : Nat)
    (mid mid2 : Int) (hne : mid2 ≠ mid) :
    ((reorderStep lid media idx mid).1).find? (mediaKey lid mid2) =
      media.find? (mediaKey lid mid2) := by
  unfold reorderStep
  cases hf : media.find? (mediaKey lid mid) with
  | none => rfl
  | some m =>
    dsimp only
    split
    · rfl
    · rw [find?_map_of_key _ _ (fun x => mediaKey_setOrderFn lid mid lid mid2 idx x)]
      cases hf2 : media.find? (mediaKey lid mid2) with
      | none => rfl
      | some r =>
        have hkey : mediaKey lid mid2 r = true := List.find?_some hf2
        have h1 : r.id = mid2 := by
          simp only [mediaKey, Bool.and_eq_true, beq_iff_eq] at hkey
          exact hkey.1
        have hff : mediaKey lid mid r = false := by
          simp [mediaKey, h1, hne]
        show some (setOrderFn lid mid idx r) = some r
        rw [setOrderFn_of_not_key lid mid idx r hff]

theorem reorderStep_find_self (lid : Int) (media : List MediaRec) (idx : Nat)
    (mid : Int) (m : MediaRec)
    (h : media.find? (mediaKey lid mid) = some m) :
    ∃ r, ((reorderStep lid media idx mid).1).find? (mediaKey lid mid) = some r ∧
      r.order = some (idx : Int) := by
  unfold reorderStep
  rw [h]
  dsimp only
  split
  · rename_i hord
    exact ⟨m, h, hord⟩
  · rw [find?_map_of_key _ _ (fun x => mediaKey_setOrderFn lid mid lid mid idx x), h]
    refine ⟨setOrderFn lid mid idx m, rfl, ?_⟩
    have hkey : mediaKey lid mid m = true := List.find?_some h
    simp [setOrderFn, hkey]

theorem filter_map_update (g : MediaRec → MediaRec) (q : MediaRec → Bool)
    (hq : ∀ x, q (g x) = q x) (hid : ∀ x, q x = true → g x = x) :
    ∀ l : List MediaRec, (l.map g).filter q = l.filter q := by
  intro l
  induction l with
  | nil => rfl
  | cons a t ih =>
    cases hqa : q a with
    | true =>
      have h1 : q (g a) = true := by rw [hq a, hqa]
      rw [List.map_cons, List.filter_cons_of_pos h1,
        List.filter_cons_of_pos hqa, hid a hqa, ih]
    | false =>
      have h1 : q (g a) = false := by rw [hq a, hqa]
      rw [List.map_cons, List.filter_cons_of_neg (by simp [h1]),
        List.filter_cons_of_neg (by simp [hqa])]
      exact ih

theorem reorderStep_filter_other (lid : Int) (media : List MediaRec) (idx : Nat)
    (mid : Int) :
    ((reorderStep lid media idx mid).1).filter (fun m => decide (m.listing_id ≠ lid)) =
      media.filter (fun m => decide (m.listing_id ≠ lid)) := by
  unfold reorderStep
  cases hf : media.find? (mediaKey lid mid) with
  | none => rfl
  | some m =>
    dsimp only
    split
    · rfl
    · apply filter_map_update
      · intro x
        unfold setOrderFn
        split <;> rfl
      · intro x hx
        apply setOrderFn_of_not_key
        have hne : x.listing_id ≠ lid := of_decide_eq_true hx
        simp [mediaKey, hne]

theorem reorderStep_length (lid : Int) (media : List MediaRec) (idx : Nat)
    (mid : Int) :
    ((reorderStep lid media idx mid).1).length = media.length := by
  unfold reorderStep
  cases hf : media.find? (mediaKey lid mid) with
  | none => rfl
  | some m =>
    dsimp only
    split
    · rfl
    · exact List.length_map media _

theorem applyReorderAux_find_none (lid lid2 mid2 : Int) :
    ∀ (ids : List Int) (media : List MediaRec) (cnt idx : Nat),
      media.find? (mediaKey lid2 mid2) = none →
      ((applyReorderAux lid ids media cnt idx).1).find? (mediaKey lid2 mid2) = none := by
  intro ids
  induction ids with
  | nil => intro media cnt idx h; exact h
  | cons mid rest ih =>
    intro media cnt idx h
    simp only [applyReorderAux]
    exact ih _ _ _ (reorderStep_find_none lid media idx mid lid2 mid2 h)

theorem applyReorderAux_find_not_mem (lid mid2 : Int) :
    ∀ (ids : List Int) (media : List MediaRec) (cnt idx : Nat),
      mid2 ∉ ids →
      ((applyReorderAux lid ids media cnt idx).1).find? (mediaKey lid mid2) =
        media.find? (mediaKey lid mid2) := by
  intro ids
  induction ids with
  | nil => intro media cnt idx _; rfl
  | cons mid rest ih =>
    intro media cnt idx hnm
    simp only [applyReorderAux]
    rw [ih _ _ _ (fun hmem => hnm (List.mem_cons_of_mem _ hmem))]
    exact reorderStep_find_other lid media idx mid mid2
      (fun he => hnm (he ▸ List.mem_cons_self _ _))

theorem applyReorderAux_find_set (lid : Int) :
    ∀ (ids : List Int) (media : List MediaRec) (cnt idx : Nat),
      ids.Nodup →
      ∀ (j : Nat) (hj : j < ids.length) (m : MediaRec),
        media.find? (mediaKey lid (ids.get ⟨j, hj⟩)) = some m →
        ∃ r, ((applyReorderAux lid ids media cnt idx).1).find?
              (mediaKey lid (ids.get ⟨j, hj⟩)) = some r ∧
          r.order = some ((idx + j : Nat) : Int) := by
  intro ids
  induction ids with
  | nil =>
    intro media cnt idx _ j hj
    exact absurd hj (by simp)
  | cons mid rest ih =>
    intro media cnt idx hnd j hj m hfind
    have hnm : mid ∉ rest := (List.nodup_cons.mp hnd).1
    simp only [applyReorderAux]
    cases j with
    | zero =>
      rw [show (mid :: rest).get ⟨0, hj⟩ = mid from rfl] at hfind ⊢
      obtain ⟨r, hr, hro⟩ := reorderStep_find_self lid media idx mid m hfind
      refine ⟨r, ?_, by simpa using hro⟩
      rw [applyReorderAux_find_not_mem lid mid rest _ _ _ hnm]
      exact hr
    | succ j' =>
      have hj' : j' < rest.length := Nat.lt_of_succ_lt_succ hj
      rw [show (mid :: rest).get ⟨j' + 1, hj⟩ = rest.get ⟨j', hj'⟩ from rfl] at hfind ⊢
      have hne : rest.get ⟨j', hj'⟩ ≠ mid := by
        intro he
        exact hnm (he ▸ List.get_mem rest j' hj')
      have hfind' : ((reorderStep lid media idx mid).1).find?
          (mediaKey lid (rest.get ⟨j', hj'⟩)) = some m := by
        rw [reorderStep_find_other lid media idx mid (rest.get ⟨j', hj'⟩) hne]
        exact hfind
      obtain ⟨r, hr, hro⟩ :=
        ih (reorderStep lid media idx mid).1 (cnt + (reorderStep lid media idx mid).2)
          (idx + 1) ((List.nodup_cons.mp hnd).2) j' hj' m hfind'
      refine ⟨r, hr, ?_⟩
      rw [hro]
      congr 1
      omega

theorem applyReorderAux_filter_other (lid : Int) :
    ∀ (ids : List Int) (media : List MediaRec) (cnt idx : Nat),
      ((applyReorderAux lid ids media cnt idx).1).filter
          (fun m => decide (m.listing_id ≠ lid)) =
        media.filter (fun m => decide (m.listing_id ≠ lid)) := by
  intro ids
  induction ids with
  | nil => intro media cnt idx; rfl
  | cons mid rest ih =>
    intro media cnt idx
    simp only [applyReorderAux]
    rw [ih]
    exact reorderStep_filter_other lid media idx mid

theorem applyReorderAux_length (lid : Int) :
    ∀ (ids : List Int) (media : List MediaRec) (cnt idx : Nat),
      ((applyReorderAux lid ids media cnt idx).1).length = media.length := by
  intro ids
  induction ids with
  | nil => intro media cnt idx; rfl
  | cons mid rest ih =>
    intro media cnt idx
    simp only [applyReorderAux]
    rw [ih]
    exact reorderStep_length lid media idx mid

theorem applyReorderAux_noop (lid : Int) :
    ∀ (ids : List Int) (media : List MediaRec) (cnt idx : Nat),
      (∀ (j : Nat) (hj : j < ids.length),
        media.find? (mediaKey lid (ids.get ⟨j, hj⟩)) = none ∨
        ∃ r, media.find? (mediaKey lid (ids.get ⟨j, hj⟩)) = some r ∧
          r.order = some ((idx + j : Nat) : Int)) →
      applyReorderAux lid ids media cnt idx = (media, cnt) := by
  intro ids
  induction ids with
  | nil => intro media cnt idx _; rfl
  | cons mid rest ih =>
    intro media cnt idx hall
    have h0 := hall 0 (by simp)
    have hstep : reorderStep lid media idx mid = (media, 0) := by
      cases h0 with
      | inl hnone =>
        unfold reorderStep
        rw [show List.find? (mediaKey lid mid) media = none from hnone]
      | inr hsome =>
        obtain ⟨r, hr, hro⟩ := hsome
        unfold reorderStep
        rw [show List.find? (mediaKey lid mid) media = some r from hr]
        dsimp only
        rw [if_pos (by simpa using hro)]
    simp only [applyReorderAux, hstep]
    refine ih media (cnt + 0) (idx + 1) ?_
    intro j hj
    have h1 : List.find? (mediaKey lid (rest.get ⟨j, hj⟩)) media = none ∨
        ∃ r, List.find? (mediaKey lid (rest.get ⟨j, hj⟩)) media = some r ∧
          r.order = some ((idx + (j + 1) : Nat) : Int) :=
      hall (j + 1) (by simpa using Nat.succ_lt_succ hj)
    have harith : idx + (j + 1) = (idx + 1) + j := by omega
    rw [harith] at h1
    exact h1

/-- The reorder endpoint under a satisfied precondition chain reduces to the
reorder loop over the whole catalog. -/
theorem media_order_eq_of_owner (st : AppState) (uid lid : Int) (mids : List Int)
    (listing : ListingRec)
    (hu : uid ∈ st.users)
    (hl : st.listings.find? (fun l => l.id == lid) = some listing)
    (hown : listing.user_id = uid) :
    media_order st uid lid (.ids mids) =
      (200, (applyReorderAux lid mids st.media 0 0).2,
        { st with media := (applyReorderAux lid mids st.media 0 0).1 }) := by
  unfold media_order
  rw [if_neg (not_not_intro hu), hl]
  dsimp only
  rw [if_neg (not_not_intro hown)]

/-- C3: an owner-authorized reorder with a well-formed duplicate-free id
sequence always succeeds with 200; media of other listings are untouched
(their sublist of the catalog is unchanged); every id found among this
listing's media at 0-based position `j` ends with order `j`; ids not found are
still not found and never make the request fail; and in particular reordering
`[12, 11]` over media `[11 (order 0), 12 (order 1)]` gives `12.order = 0`,
`11.order = 1` and `updated_count = 2`. -/
theorem C3_media_order_semantics (st : AppState) (uid lid : Int) (mids : List Int)
    (listing : ListingRec)
    (hu : uid ∈ st.users)
    (hl : st.listings.find? (fun l => l.id == lid) = some listing)
    (hown : listing.user_id = uid)
    (hnd : mids.Nodup) :
    (media_order st uid lid (.ids mids)).1 = 200 ∧
    ((media_order st uid lid (.ids mids)).2.2).media.filter
        (fun m => decide (m.listing_id ≠ lid)) =
      st.media.filter (fun m => decide (m.listing_id ≠ lid)) ∧
    (∀ (j : Nat) (hj : j < mids.length) (m : MediaRec),
      st.media.find? (mediaKey lid (mids.get ⟨j, hj⟩)) = some m →
      ∃ r, ((media_order st uid lid (.ids mids)).2.2).media.find?
            (mediaKey lid (mids.get ⟨j, hj⟩)) = some r ∧
        r.order = some (j : Int)) ∧
    (∀ (j : Nat) (hj : j < mids.length),
      st.media.find? (mediaKey lid (mids.get ⟨j, hj⟩)) = none →
      ((media_order st uid lid (.ids mids)).2.2).media.find?
        (mediaKey lid (mids.get ⟨j, hj⟩)) = none) ∧
    media_order exSt 1 1 (.ids [12, 11]) = (200, 2, exStAfter) := by
  rw [media_order_eq_of_owner st uid lid mids listing hu hl hown]
  refine ⟨rfl, ?_, ?_, ?_, rfl⟩
  · exact applyReorderAux_filter_other lid mids st.media 0 0
  · intro j hj m hfind
    obtain ⟨r, hr, hro⟩ :=
      applyReorderAux_find_set lid mids st.media 0 0 hnd j hj m hfind
    exact ⟨r, hr, by simpa using hro⟩
  · intro j hj hnone
    exact applyReorderAux_find_none lid lid (mids.get ⟨j, hj⟩) mids st.media 0 0 hnone

/-- C3 witness: instantiation at the listing of `exSt` with the sequence
`[12, 11]`. -/
theorem C3_witness :
    ((1 : Int) ∈ exSt.users ∧
     exSt.listings.find? (fun l => l.id == (1 : Int)) = some exListing ∧
     exListing.user_id = 1 ∧ ([12, 11] : List Int).Nodup) ∧
    ((media_order exSt 1 1 (.ids [12, 11])).1 = 200 ∧
     ((media_order exSt 1 1 (.ids [12, 11])).2.2).media.filter
         (fun m => decide (m.listing_id ≠ (1 : Int))) =
       exSt.media.filter (fun m => decide (m.listing_id ≠ (1 : Int))) ∧
     (∀ (j : Nat) (hj : j < ([12, 11] : List Int).length) (m : MediaRec),
       exSt.media.find? (mediaKey 1 (([12, 11] : List Int).get ⟨j, hj⟩)) = some m →
       ∃ r, ((media_order exSt 1 1 (.ids [12, 11])).2.2).media.find?
             (mediaKey 1 (([12, 11] : List Int).get ⟨j, hj⟩)) = some r ∧
         r.order = some (j : Int)) ∧
     (∀ (j : Nat) (hj : j < ([12, 11] : List Int).length),
       exSt.media.find? (mediaKey 1 (([12, 11] : List Int).get ⟨j, hj⟩)) = none →
       ((media_order exSt 1 1 (.ids [12, 11])).2.2).media.find?
         (mediaKey 1 (([12, 11] : List Int).get ⟨j, hj⟩)) = none) ∧
     media_order exSt 1 1 (.ids [12, 11]) = (200, 2, exStAfter)) :=
  ⟨⟨by decide, rfl, rfl, by decide⟩,
   C3_media_order_semantics exSt 1 1 [12, 11] exListing (by decide) rfl rfl (by decide)⟩

/-- C10: reordering is idempotent for duplicate-free sequences: if an
owner-authorized reorder with a duplicate-free id list succeeds, applying the
same reorder again changes nothing and reports `updated_count = 0`. -/
theorem C10_reorder_idempotent (st : AppState) (uid lid : Int) (mids : List Int)
    (listing : ListingRec) (c1 : Nat) (st1 : AppState)
    (hu : uid ∈ st.users)
    (hl : st.listings.find? (fun l => l.id == lid) = some listing)
    (hown : listing.user_id = uid)
    (hnd : mids.Nodup)
    (h1 : media_order st uid lid (.ids mids) = (200, c1, st1)) :
    media_order st1 uid lid (.ids mids) = (200, 0, st1) := by
  rw [media_order_eq_of_owner st uid lid mids listing hu hl hown] at h1
  simp only [Prod.mk.injEq] at h1
  obtain ⟨-, -, rfl⟩ := h1
  have hpost : ∀ (j : Nat) (hj : j < mids.length),
      ((applyReorderAux lid mids st.media 0 0).1).find?
          (mediaKey lid (mids.get ⟨j, hj⟩)) = none ∨
      ∃ r, ((applyReorderAux lid mids st.media 0 0).1).find?
          (mediaKey lid (mids.get ⟨j, hj⟩)) = some r ∧
        r.order = some ((0 + j : Nat) : Int) := by
    intro j hj
    cases hfind : st.media.find? (mediaKey lid (mids.get ⟨j, hj⟩)) with
    | none =>
      exact Or.inl (applyReorderAux_find_none lid lid _ mids st.media 0 0 hfind)
    | some m =>
      exact Or.inr (applyReorderAux_find_set lid mids st.media 0 0 hnd j hj m hfind)
  have hno := applyReorderAux_noop lid mids
    ((applyReorderAux lid mids st.media 0 0).1) 0 0 hpost
  rw [media_order_eq_of_owner
    { st with media := (applyReorderAux lid mids st.media 0 0).1 }
    uid lid mids listing hu hl hown]
  dsimp only
  rw [hno]

/-- C10 witness: the reorder of `exSt` by `[12, 11]` reaches `exStAfter`;
repeating it reports 0 updates and leaves `exStAfter` unchanged. -/
theorem C10_witness :
    ((1 : Int) ∈ exSt.users ∧
     exSt.listings.find? (fun l => l.id == (1 : Int)) = some exListing ∧
     exListing.user_id = 1 ∧ ([12, 11] : List Int).Nodup ∧
     media_order exSt 1 1 (.ids [12, 11]) = (200, 2, exStAfter)) ∧
    media_order exStAfter 1 1 (.ids [12, 11]) = (200, 0, exStAfter) :=
  ⟨⟨by decide, rfl, rfl, by decide, rfl⟩,
   C10_reorder_idempotent exSt 1 1 [12, 11] exListing 2 exStAfter (by decide) rfl
     rfl (by decide) rfl⟩

end Marketplace
